import Mathlib

/-!
Verification of the vertical-video-player core against its specification.

The definitions below are shallow embeddings of the TypeScript source:
floating-point numbers become rationals, JS objects/Maps become association
lists, and the per-call `Math.random()` noise of the ranking engine becomes an
explicit noise argument.  State-changing React callbacks become pure functions
on an explicit session-state record.
-/

namespace VVP

/-! ### Data model (src/types.ts) -/

inductive MomentType where
  | video
  | image
  | ad
  | youtube
deriving DecidableEq, BEq, Repr

/-- A playlist moment, keeping the fields the core engine consults:
identity, kind, recommendation tags and trending score. -/
structure Moment where
  content_id : String
  type : MomentType
  tags : List String
  globalPopularity : Option ℚ
deriving DecidableEq, Repr

/-- A persisted user profile (src/recommendation/engine.ts): per-tag interest
weights and a most-recent-first watch history. -/
structure UserProfile where
  interestVector : List (String × ℚ)
  watchHistory : List String
deriving DecidableEq, Repr

/-! ### Recommendation engine (src/recommendation/engine.ts) -/

def LEARNING_RATE : ℚ := 15 / 100

def HISTORY_LIMIT : ℕ := 50

/-- Lookup of `profile.interestVector[tag]` on the association-list model. -/
def lookupWeight (iv : List (String × ℚ)) (tag : String) : Option ℚ :=
  (iv.find? (fun e => e.1 == tag)).map (fun e => e.2)

/-- Assignment `profile.interestVector[tag] = w` on the association-list
model: overwrite the existing binding or append a new one. -/
def setWeight (iv : List (String × ℚ)) (tag : String) (w : ℚ) : List (String × ℚ) :=
  match iv with
  | [] => [(tag, w)]
  | e :: rest => if e.1 == tag then (tag, w) :: rest else e :: setWeight rest tag w

/-- The clamp `Math.max(0.01, Math.min(newWeight, 5.0))` used by
`updateUserInterest`. -/
def clampWeight (w : ℚ) : ℚ := max (1 / 100) (min w 5)

/-- `updateUserInterest(tags, engagementScore)`: for each tag, read the
current weight (default 0.5), add `LEARNING_RATE × engagementScore`, clamp to
[0.01, 5.0] and store. -/
def updateUserInterest (tags : List String) (engagementScore : ℚ)
    (profile : UserProfile) : UserProfile :=
  { profile with
    interestVector := tags.foldl (fun iv tag =>
      let currentWeight := (lookupWeight iv tag).getD (1 / 2)
      let newWeight := currentWeight + LEARNING_RATE * engagementScore
      setWeight iv tag (clampWeight newWeight)) profile.interestVector }

/-- `recordWatch(contentId)`: push to the front of the history, de-duplicate,
cap at `HISTORY_LIMIT`. -/
def recordWatch (contentId : String) (profile : UserProfile) : UserProfile :=
  { profile with
    watchHistory :=
      (contentId :: profile.watchHistory.filter (fun id => !(id == contentId))).take
        HISTORY_LIMIT }

/-- `calculateScore(profile, video)` with the `Math.random()` draw made an
explicit `noise` argument: −10 for recently watched ids, otherwise
0.7 × mean tag affinity + 0.3 × popularity + noise. -/
def calculateScore (profile : UserProfile) (video : Moment) (noise : ℚ) : ℚ :=
  if (profile.watchHistory.take 20).contains video.content_id then -10
  else
    let affinityScore := video.tags.foldl
      (fun acc tag => acc + ((lookupWeight profile.interestVector tag).getD (1 / 2))) 0
    let avgAffinity := affinityScore / ((max 1 video.tags.length : ℕ) : ℚ)
    let popularity := video.globalPopularity.getD (1 / 2)
    let finalScore := avgAffinity * (7 / 10) + popularity * (3 / 10)
    finalScore + noise

/-- The scored intermediate list of `rankVideos`, with the noise draw of each
call supplied per position. -/
def scoreRank (profile : UserProfile) (videos : List Moment) (noiseAt : ℕ → ℚ) :
    List (ℚ × Moment) :=
  videos.enum.map (fun p => (calculateScore profile p.2 (noiseAt p.1), p.2))

/-- `rankVideos(videos)`: score every video, stable-sort descending by score
(the JS comparator is `(a, b) => b.score - a.score`), drop the scores. -/
def rankVideos (profile : UserProfile) (videos : List Moment) (noiseAt : ℕ → ℚ) :
    List Moment :=
  ((scoreRank profile videos noiseAt).mergeSort (fun a b => decide (b.1 ≤ a.1))).map
    (fun e => e.2)

/-- `getEngagementScore(watchPercentage, wasSkipped)`. -/
def getEngagementScore (watchPercentage : ℚ) (wasSkipped : Bool) : ℚ :=
  if wasSkipped then (if watchPercentage < 1 / 5 then -(3 / 10) else 0)
  else if 9 / 10 ≤ watchPercentage then 1
  else if 1 / 2 ≤ watchPercentage then 1 / 2
  else if 1 / 5 ≤ watchPercentage then 1 / 10
  else -(1 / 5)

/-- Whether a moment id sits in the most-recent-20 window of the watch
history, i.e. is penalized by `calculateScore`. -/
def penalizedBy (profile : UserProfile) (video : Moment) : Bool :=
  (profile.watchHistory.take 20).contains video.content_id

/-- A finite sequence of `updateUserInterest` calls (tag list and engagement
score of each call), applied in order. -/
def applyEngagements (updates : List (List String × ℚ)) (profile : UserProfile) :
    UserProfile :=
  updates.foldl (fun p u => updateUserInterest u.1 u.2 p) profile

/-! ### Player session engine (src/player/VerticalPlayer.tsx, swipe variant) -/

/-- `hasVideo` helper of the player: video and ad moments carry a video
element. -/
def hasVideo (m : Moment) : Bool :=
  m.type == MomentType.video || m.type == MomentType.ad

/-- The effective playlist built at session open: filter out ads skipped in
this session, falling back to the unfiltered payload when the filter removes
everything (`filtered.length ? filtered : payload.moments`). -/
def effectiveMoments (skippedAds : List String) (payloadMoments : List Moment) :
    List Moment :=
  let filtered := payloadMoments.filter
    (fun m => !(m.type == MomentType.ad && skippedAds.contains m.content_id))
  if filtered.isEmpty then payloadMoments else filtered

/-- The session state owned by the player component: current index and the
mute/pause flags, plus whether `onClose` has been invoked. -/
structure PlayerState where
  index : ℕ
  paused : Bool
  muted : Bool
  closed : Bool
deriving DecidableEq, Repr

/-- The state set up by the component at open: `useState(initialIndex)`,
`useState(false)` for muted and paused. -/
def openState (initialIndex : ℕ) : PlayerState :=
  { index := initialIndex, paused := false, muted := false, closed := false }

/-- `goNext`: advance when not at the last index (clearing pause), otherwise
invoke `onClose`. -/
def goNext (total : ℕ) (s : PlayerState) : PlayerState :=
  if s.index < total - 1 then { s with index := s.index + 1, paused := false }
  else { s with closed := true }

/-- `goPrev`: step back when not at index 0 (clearing pause), otherwise do
nothing. -/
def goPrev (s : PlayerState) : PlayerState :=
  if 0 < s.index then { s with index := s.index - 1, paused := false } else s

/-- Session states reachable from open through the navigation callbacks. -/
inductive Reachable (total startIndex : ℕ) : PlayerState → Prop where
  | openSession : Reachable total startIndex (openState startIndex)
  | stepNext : ∀ {s : PlayerState},
      Reachable total startIndex s → Reachable total startIndex (goNext total s)
  | stepPrev : ∀ {s : PlayerState},
      Reachable total startIndex s → Reachable total startIndex (goPrev s)

/-! ### Gesture release decision (handleTouchEnd) -/

def VELOCITY_THRESHOLD : ℚ := 3 / 10

-- Source constant SWIPE_THRESHOLD_RATIO (15% of screen height).
def SWIPE_THRESHOLD_FRAC : ℚ := 15 / 100

inductive SwipeAction where
  | next
  | prev
  | close
  | settle
deriving DecidableEq, Repr

/-- The decision taken on touch release: `offset` is the net vertical
displacement accumulated by the drag, `avgVelocity` the weighted average
velocity (px/ms).  Swipe up past a threshold goes next (or closes at the last
index); swipe down goes previous (or rubber-bands at index 0); anything else
settles back. -/
def handleTouchEnd (offset avgVelocity screenH : ℚ) (hasPrev hasNext : Bool) :
    SwipeAction :=
  let swipeThreshold := screenH * SWIPE_THRESHOLD_FRAC
  let velocityTriggered := |avgVelocity| > VELOCITY_THRESHOLD
  let distanceTriggered := |offset| > swipeThreshold
  if offset < 0 ∧ (velocityTriggered ∨ distanceTriggered) then
    if hasNext then SwipeAction.next else SwipeAction.close
  else if offset > 0 ∧ (velocityTriggered ∨ distanceTriggered) then
    if hasPrev then SwipeAction.prev else SwipeAction.settle
  else SwipeAction.settle

/-! ### Slot rendering (the `moments.map` render loop) -/

/-- What the render loop produces for one slide: its CSS visibility and
whether a video element is mounted inside it. -/
structure SlideView where
  visible : Bool
  mountsVideo : Bool
deriving DecidableEq, Repr

/-- The slide rendered for playlist position `i` when the current index is
`index`: nothing for non-video moments (`return null`), otherwise a slide
whose visibility is `Math.abs(i - index) <= 1` and which always mounts its
video element. -/
def renderSlide (moments : List Moment) (index i : ℕ) : Option SlideView :=
  match moments[i]? with
  | none => none
  | some m =>
    if hasVideo m then
      some { visible := decide (((i : ℤ) - (index : ℤ)).natAbs ≤ 1), mountsVideo := true }
    else none

/-! ### Seen ledger (src/player/seen.ts) -/

def SEEN_CAP : ℕ := 5000

/-- `markSeen(id)`: append the id if not already present, then keep only the
last `SEEN_CAP` entries (`seen.slice(-5000)`). -/
def markSeen {α : Type} [DecidableEq α] (seen : List α) (id : α) : List α :=
  let pushed := if id ∈ seen then seen else seen ++ [id]
  pushed.drop (pushed.length - SEEN_CAP)

/-- Insert a sequence of ids into an initially empty ledger. -/
def markSeenAll {α : Type} [DecidableEq α] (ids : List α) : List α :=
  ids.foldl markSeen []

/-! ### Blob-URL media cache (src/player/useVideoCache.ts, blob variant) -/

/-- The module-level mutable state of the blob cache: memoized blob URLs,
locators with an in-flight fetch, and the resolve callbacks of coalesced
callers (identified by an id). -/
structure BlobCacheState where
  blobUrlCache : List (String × String)
  fetchingInProgress : List String
  pendingCallbacks : List (String × List ℕ)
deriving DecidableEq, Repr

/-- `blobUrlCache.get(url)`. -/
def lookupBlob (st : BlobCacheState) (url : String) : Option String :=
  (st.blobUrlCache.find? (fun e => e.1 == url)).map (fun e => e.2)

/-- `pendingCallbacks.get(url) || []`. -/
def pendingFor (st : BlobCacheState) (url : String) : List ℕ :=
  ((st.pendingCallbacks.find? (fun e => e.1 == url)).map (fun e => e.2)).getD []

/-- A second caller arriving while a fetch is in flight: its resolve callback
is appended to the pending list for the locator. -/
def joinFetch (st : BlobCacheState) (url : String) (cbId : ℕ) : BlobCacheState :=
  { st with
    pendingCallbacks :=
      (url, pendingFor st url ++ [cbId]) ::
        st.pendingCallbacks.filter (fun e => !(e.1 == url)) }

/-- `fetchingInProgress.add(url)` at the start of a fetch. -/
def startFetch (st : BlobCacheState) (url : String) : BlobCacheState :=
  { st with fetchingInProgress := url :: st.fetchingInProgress }

/-- Completion of the in-flight fetch for `url`.  `fetched = some blobUrl`
models a successful fetch and blob materialization; `fetched = none` models a
rejected fetch or a non-OK response (the catch branch).  Returns the value
resolved to the initiating caller, the list of (callback, delivered value)
notifications, and the new state. -/
def finishFetch (st : BlobCacheState) (url : String) (fetched : Option String) :
    String × List (ℕ × String) × BlobCacheState :=
  match fetched with
  | some blobUrl =>
    (blobUrl,
     (pendingFor st url).map (fun cb => (cb, blobUrl)),
     { blobUrlCache := (url, blobUrl) :: st.blobUrlCache,
       fetchingInProgress := st.fetchingInProgress.filter (fun u => !(u == url)),
       pendingCallbacks := st.pendingCallbacks.filter (fun e => !(e.1 == url)) })
  | none =>
    (url,
     (pendingFor st url).map (fun cb => (cb, url)),
     { st with
       fetchingInProgress := st.fetchingInProgress.filter (fun u => !(u == url)),
       pendingCallbacks := st.pendingCallbacks.filter (fun e => !(e.1 == url)) })

/-- The outcome of one `fetchVideoAsBlob` call: either a resolved value (with
the notifications its completion delivered) or a registration on the
in-flight fetch. -/
inductive FetchCall where
  | value (src : String) (delivered : List (ℕ × String)) (st : BlobCacheState)
  | queued (cbId : ℕ) (st : BlobCacheState)
deriving DecidableEq, Repr

/-- `fetchVideoAsBlob(remoteUrl)`: memory-cache hit, coalescing onto an
in-flight fetch, or a fresh fetch whose network outcome is `fetched`. -/
def fetchVideoAsBlob (st : BlobCacheState) (remoteUrl : String) (newCbId : ℕ)
    (fetched : Option String) : FetchCall :=
  match lookupBlob st remoteUrl with
  | some cached => FetchCall.value cached [] st
  | none =>
    if st.fetchingInProgress.contains remoteUrl then
      FetchCall.queued newCbId (joinFetch st remoteUrl newCbId)
    else
      match finishFetch (startFetch st remoteUrl) remoteUrl fetched with
      | (res, delivered, st2) => FetchCall.value res delivered st2

/-! ### Engagement tracking (trackEngagement in the snap-scroll variant) -/

/-- `trackEngagement(momentIndex, watchProgress, wasSkipped)`: ads are
excluded entirely; otherwise the interest vector is updated from the tags
(when there are any) and the watch is recorded. -/
def trackEngagement (moments : List Moment) (profile : UserProfile)
    (momentIndex : ℕ) (watchProgress : ℚ) (wasSkipped : Bool) : UserProfile :=
  match moments[momentIndex]? with
  | none => profile
  | some m =>
    if m.type == MomentType.ad then profile
    else
      let engagementScore := getEngagementScore watchProgress wasSkipped
      let p1 := if 0 < m.tags.length then updateUserInterest m.tags engagementScore profile
                else profile
      recordWatch m.content_id p1

/-! ### Concrete fixtures used by counterexamples and witnesses -/

/-- A plain video moment with no tags. -/
def mkVideo (id : String) : Moment :=
  { content_id := id, type := MomentType.video, tags := [], globalPopularity := none }

/-- A four-video demo playlist. -/
def demoMoments : List Moment :=
  [mkVideo "v1", mkVideo "v2", mkVideo "v3", mkVideo "v4"]

/-- A concrete ad moment. -/
def adMoment : Moment :=
  { content_id := "ad1", type := MomentType.ad, tags := [], globalPopularity := none }

/-- A concrete profile whose single interest weight is in range and whose
watch history holds one id. -/
def profileFix : UserProfile :=
  { interestVector := [("nba", 2)], watchHistory := ["w1"] }

/-- A moment whose id sits in the recent watch history of `profileFix`. -/
def vidPen : Moment :=
  { content_id := "w1", type := MomentType.video, tags := ["nba"], globalPopularity := none }

/-- A moment not in any watch history. -/
def vidNew : Moment :=
  { content_id := "n1", type := MomentType.video, tags := ["nba"], globalPopularity := none }

/-- A cache state with one pending callback (id 7) registered for "u". -/
def stFix : BlobCacheState :=
  { blobUrlCache := [], fetchingInProgress := [], pendingCallbacks := [("u", [7])] }

end VVP

namespace VVP

/-! ## Theorems -/

/-- Navigation preserves validity of the current index once the session opens
at a valid index. -/
theorem reachable_index_valid :
    ∀ (total startIndex : ℕ) (s : PlayerState),
      startIndex < total → Reachable total startIndex s → s.index < total := by
  intro total startIndex s hstart h
  induction h with
  | openSession => simpa [openState] using hstart
  | stepNext _ ih =>
    unfold goNext
    split
    · next hlt => simp; omega
    · simpa using ih
  | stepPrev _ ih =>
    unfold goPrev
    split
    · next hpos => simp; omega
    · exact ih

/-- C1, as stated, fails on the code: `useState(initialIndex)` never clamps
the requested start index, so opening a one-moment playlist at start index 1
yields `currentIndex = 1`, which is not a valid index of the effective
playlist. -/
theorem C1_counterexample_unclamped_start :
    ¬ ((openState 1).index < (effectiveMoments [] [mkVideo "v1"]).length) := by
  decide

/-- C1 (amended): if the payload is nonempty the effective playlist is
nonempty (the ledger-filter fallback), and when the requested start index is
a valid index of the effective playlist, `currentIndex` is a valid index in
every reachable session state. -/
theorem C1_effective_playlist_invariant :
    ∀ (skippedAds : List String) (payloadMoments : List Moment) (startIndex : ℕ),
      (payloadMoments ≠ [] → effectiveMoments skippedAds payloadMoments ≠ [])
      ∧ (∀ s : PlayerState,
          startIndex < (effectiveMoments skippedAds payloadMoments).length →
          Reachable (effectiveMoments skippedAds payloadMoments).length startIndex s →
          s.index < (effectiveMoments skippedAds payloadMoments).length) := by
  intro skippedAds payloadMoments startIndex
  constructor
  · intro hne
    by_cases hemp : (payloadMoments.filter
        (fun m => !(m.type == MomentType.ad && skippedAds.contains m.content_id))).isEmpty
    · simp only [effectiveMoments]
      rw [if_pos hemp]
      exact hne
    · simp only [effectiveMoments, hemp]
      rw [if_neg (by simp [hemp])]
      simpa [List.isEmpty_iff] using hemp
  · intro s hstart hreach
    exact reachable_index_valid _ _ _ hstart hreach

/-- Witness for C1 at a concrete input: a one-video payload opened at start
index 0 keeps a valid index. -/
theorem C1_witness :
    (openState 0).index < (effectiveMoments [] [mkVideo "v1"]).length :=
  (C1_effective_playlist_invariant [] [mkVideo "v1"] 0).2 (openState 0) (by decide)
    Reachable.openSession

/-- C2: away from the playlist boundaries, a release triggers `next` exactly
when the displacement is negative and either the weighted velocity exceeds
the 0.3 px/ms threshold or the distance exceeds 15% of the viewport height;
symmetrically for `prev`; and the two concrete gestures of the spec (−200 px
at zero velocity on a 1000 px viewport, and a −10 px flick at 0.5 px/ms) both
trigger `next`. -/
theorem C2_release_decision :
    (∀ d v screenH : ℚ,
      (handleTouchEnd d v screenH true true = SwipeAction.next ↔
        d < 0 ∧ (VELOCITY_THRESHOLD < |v| ∨ screenH * SWIPE_THRESHOLD_FRAC < |d|))
      ∧ (handleTouchEnd d v screenH true true = SwipeAction.prev ↔
        0 < d ∧ (VELOCITY_THRESHOLD < |v| ∨ screenH * SWIPE_THRESHOLD_FRAC < |d|)))
    ∧ handleTouchEnd (-200) 0 1000 true true = SwipeAction.next
    ∧ handleTouchEnd (-10) (1 / 2) 1000 true true = SwipeAction.next := by
  have key : ∀ d v screenH : ℚ, handleTouchEnd d v screenH true true =
      (if d < 0 ∧ (VELOCITY_THRESHOLD < |v| ∨ screenH * SWIPE_THRESHOLD_FRAC < |d|) then
        SwipeAction.next
      else if 0 < d ∧ (VELOCITY_THRESHOLD < |v| ∨ screenH * SWIPE_THRESHOLD_FRAC < |d|) then
        SwipeAction.prev
      else SwipeAction.settle) := by
    intro d v screenH
    rfl
  refine ⟨fun d v screenH => ?_, ?_, ?_⟩
  · rw [key d v screenH]
    split_ifs with h1 h2
    · refine ⟨by simp [h1], ?_⟩
      simp only [iff_def]
      constructor
      · intro h; exact absurd h (by simp)
      · rintro ⟨hd, -⟩; exact absurd h1.1 (lt_asymm hd)
    · refine ⟨?_, by simp [h2]⟩
      simp only [iff_def]
      constructor
      · intro h; exact absurd h (by simp)
      · rintro ⟨hd, -⟩; exact absurd hd (lt_asymm h2.1)
    · constructor
      · simp only [iff_def]
        exact ⟨fun h => absurd h (by simp), fun hc => absurd hc h1⟩
      · simp only [iff_def]
        exact ⟨fun h => absurd h (by simp), fun hc => absurd hc h2⟩
  · simp only [handleTouchEnd]
    rw [if_pos]
    · rfl
    · refine ⟨by norm_num, Or.inr ?_⟩
      rw [abs_of_nonpos (by norm_num : (-200 : ℚ) ≤ 0)]
      norm_num [SWIPE_THRESHOLD_FRAC]
  · simp only [handleTouchEnd]
    rw [if_pos]
    · rfl
    · refine ⟨by norm_num, Or.inl ?_⟩
      rw [abs_of_pos (by norm_num : (0 : ℚ) < 1 / 2)]
      norm_num [VELOCITY_THRESHOLD]

/-- C5: `goPrev` at index 0 leaves the whole session state unchanged, and
`goNext` at the last index does not advance but invokes `onClose`. -/
theorem C5_boundary_noop_close :
    ∀ (total : ℕ) (s : PlayerState),
      (s.index = 0 → goPrev s = s)
      ∧ (s.index = total - 1 → goNext total s = { s with closed := true }) := by
  intro total s
  constructor
  · intro h; simp [goPrev, h]
  · intro h; simp [goNext, h]

/-- Witness for C5 at concrete states: index 0 of a 3-moment session, and
index 2 (the last) of the same session. -/
theorem C5_witness :
    goPrev (openState 0) = openState 0
    ∧ goNext 3 { index := 2, paused := false, muted := false, closed := false }
        = { index := 2, paused := false, muted := false, closed := true } :=
  ⟨(C5_boundary_noop_close 3 (openState 0)).1 rfl,
   (C5_boundary_noop_close 3
      { index := 2, paused := false, muted := false, closed := false }).2 rfl⟩

/-- C6, as stated, fails on the code: with `currentIndex = 0`, the slide at
playlist position 3 (distance 3 ≥ 2) still mounts its video element — the
render loop mounts every video slide and only toggles CSS visibility. -/
theorem C6_counterexample_far_slide_mounted :
    renderSlide demoMoments 0 3 = some { visible := false, mountsVideo := true }
    ∧ ¬ (((3 : ℤ) - (0 : ℤ)).natAbs < 2) := by
  decide

/-- C6 (amended): a slide is rendered exactly for the video/ad moments, every
rendered slide mounts its media element regardless of its distance to the
current index, and `|i − currentIndex| ≤ 1` governs only the slide's
visibility. -/
theorem C6_slot_window :
    ∀ (moments : List Moment) (index i : ℕ),
      ((renderSlide moments index i).isSome = true ↔
        ∃ m, moments[i]? = some m ∧ hasVideo m = true)
      ∧ (∀ sv : SlideView, renderSlide moments index i = some sv →
          sv.mountsVideo = true)
      ∧ (∀ sv : SlideView, renderSlide moments index i = some sv →
          (sv.visible = true ↔ ((i : ℤ) - (index : ℤ)).natAbs ≤ 1)) := by
  intro moments index i
  unfold renderSlide
  cases h : moments[i]? with
  | none => simp
  | some m =>
    by_cases hv : hasVideo m
    · refine ⟨by simp [hv], ?_, ?_⟩
      · intro sv hsv
        simp [hv] at hsv
        simp [← hsv]
      · intro sv hsv
        simp [hv] at hsv
        simp [← hsv]
    · simp [hv]

/-- Witness for C6 at a concrete input: the slide at distance 3 from the
current index mounts its video element. -/
theorem C6_witness :
    SlideView.mountsVideo { visible := false, mountsVideo := true } = true :=
  (C6_slot_window demoMoments 0 3).2.1 { visible := false, mountsVideo := true }
    (by decide)

/-- C7, as stated, fails on the code: an abandoned watch with fraction 0.9
gets engagement score 0, not the +1.0 the unconditional mapping of the claim
gives it. -/
theorem C7_counterexample_abandoned_full_watch :
    getEngagementScore (9 / 10) true = 0 ∧ ((0 : ℚ) ≠ 1) := by
  constructor
  · norm_num [getEngagementScore]
  · norm_num

/-- C7 (amended): for a non-abandoned watch the score is +1.0 at p ≥ 0.9,
+0.5 at 0.5 ≤ p < 0.9, +0.1 at 0.2 ≤ p < 0.5 and −0.2 below 0.2; for an
abandoned watch it is −0.3 below 0.2 and 0 otherwise; and ad moments never
reach the interest-vector update (their engagement leaves the profile
unchanged). -/
theorem C7_engagement_mapping :
    (∀ p : ℚ,
      (9 / 10 ≤ p → getEngagementScore p false = 1)
      ∧ (1 / 2 ≤ p → p < 9 / 10 → getEngagementScore p false = 1 / 2)
      ∧ (1 / 5 ≤ p → p < 1 / 2 → getEngagementScore p false = 1 / 10)
      ∧ (p < 1 / 5 → getEngagementScore p false = -(1 / 5))
      ∧ (p < 1 / 5 → getEngagementScore p true = -(3 / 10))
      ∧ (1 / 5 ≤ p → getEngagementScore p true = 0))
    ∧ (∀ (moments : List Moment) (profile : UserProfile) (i : ℕ) (prog : ℚ)
        (sk : Bool) (m : Moment),
        moments[i]? = some m → m.type = MomentType.ad →
        trackEngagement moments profile i prog sk = profile) := by
  constructor
  · intro p
    refine ⟨fun h => ?_, fun h h2 => ?_, fun h h2 => ?_, fun h => ?_,
      fun h => ?_, fun h => ?_⟩ <;>
      simp only [getEngagementScore] <;> split_ifs <;>
      first | rfl | linarith | simp_all
  · intro moments profile i prog sk m hm had
    simp only [trackEngagement, hm]
    rw [if_pos (by rw [had]; rfl)]

/-- Witness for C7 at concrete inputs: a 0.95 non-abandoned watch scores
+1.0, and engagement on an ad moment leaves the profile unchanged. -/
theorem C7_witness :
    getEngagementScore (19 / 20) false = 1
    ∧ trackEngagement [adMoment] { interestVector := [], watchHistory := [] } 0
        (1 / 2) false = { interestVector := [], watchHistory := [] } :=
  ⟨(C7_engagement_mapping.1 (19 / 20)).1 (by norm_num),
   C7_engagement_mapping.2 [adMoment] { interestVector := [], watchHistory := [] } 0
     (1 / 2) false adMoment rfl rfl⟩

/-- C9: when the fetch for a locator fails, completion resolves the
initiating caller to the original remote locator (no exception escapes the
catch), and every caller coalesced onto the in-flight fetch is delivered that
same original locator; a fresh failed `fetchVideoAsBlob` call therefore
returns the locator unchanged. -/
theorem C9_fetch_failure_returns_locator :
    ∀ (st : BlobCacheState) (url : String) (cbId : ℕ),
      ((finishFetch st url none).1 = url
        ∧ (finishFetch st url none).2.1 = (pendingFor st url).map (fun cb => (cb, url)))
      ∧ pendingFor (joinFetch st url cbId) url = pendingFor st url ++ [cbId]
      ∧ (lookupBlob st url = none → st.fetchingInProgress.contains url = false →
          fetchVideoAsBlob st url cbId none
            = FetchCall.value url ((pendingFor st url).map (fun cb => (cb, url)))
                (finishFetch (startFetch st url) url none).2.2) := by
  intro st url cbId
  refine ⟨⟨rfl, rfl⟩, ?_, ?_⟩
  · simp [joinFetch, pendingFor]
  · intro hlook hfetch
    have hmem : url ∉ st.fetchingInProgress := by simpa using hfetch
    simp [fetchVideoAsBlob, hlook, hfetch, hmem, finishFetch, startFetch, pendingFor]

/-- Witness for C9 at a concrete state with one coalesced caller (callback
id 7): the failed fetch resolves to "u" and delivers "u" to the pending
caller. -/
theorem C9_witness :
    fetchVideoAsBlob stFix "u" 7 none
      = FetchCall.value "u" ((pendingFor stFix "u").map (fun cb => (cb, "u")))
          (finishFetch (startFetch stFix "u") "u" none).2.2 :=
  (C9_fetch_failure_returns_locator stFix "u" 7).2.2 (by decide) (by decide)

end VVP

namespace VVP

/-- While the ledger stays at or below the cap, `markSeen` of fresh ids is a
plain append. -/
theorem markSeen_below_cap {α : Type} [DecidableEq α] :
    ∀ (ids acc : List α),
      (acc ++ ids).Nodup → (acc ++ ids).length ≤ SEEN_CAP →
      List.foldl markSeen acc ids = acc ++ ids := by
  intro ids
  induction ids with
  | nil => intro acc _ _; simp
  | cons id rest ih =>
    intro acc hnd hlen
    have hmem : id ∉ acc := by
      intro hc
      exact (List.disjoint_of_nodup_append hnd) hc (by simp)
    have hstep : markSeen acc id = acc ++ [id] := by
      unfold markSeen
      rw [if_neg hmem]
      have hle : (acc ++ [id]).length ≤ SEEN_CAP := by
        simp only [List.length_append, List.length_cons] at hlen ⊢
        simp
        omega
      show (acc ++ [id]).drop ((acc ++ [id]).length - SEEN_CAP) = acc ++ [id]
      rw [Nat.sub_eq_zero_of_le hle, List.drop_zero]
    rw [List.foldl_cons, hstep]
    have hassoc : (acc ++ [id]) ++ rest = acc ++ id :: rest := by simp
    rw [ih (acc ++ [id]) (by rw [hassoc]; exact hnd) (by rw [hassoc]; exact hlen)]
    simp

/-- C8: inserting `SEEN_CAP + 1` (that is, 5001) distinct ids into an empty
ledger leaves exactly the 5000 most recently inserted ids, truncating the one
oldest id from the front of the ordered list. -/
theorem C8_seen_ledger_cap :
    ∀ {α : Type} [DecidableEq α] (ids : List α),
      ids.Nodup → ids.length = SEEN_CAP + 1 →
      markSeenAll ids = ids.drop 1 ∧ (markSeenAll ids).length = SEEN_CAP := by
  intro α _ ids hnd hlen
  have hsplit : ids.take SEEN_CAP ++ ids.drop SEEN_CAP = ids :=
    List.take_append_drop SEEN_CAP ids
  have hdlen : (ids.drop SEEN_CAP).length = 1 := by
    rw [List.length_drop, hlen]
    omega
  obtain ⟨x, hx⟩ := List.length_eq_one.mp hdlen
  have htake : (ids.take SEEN_CAP).length = SEEN_CAP := by
    rw [List.length_take, hlen]
    omega
  have hids : ids.take SEEN_CAP ++ [x] = ids := by rw [← hx]; exact hsplit
  have hfold : List.foldl markSeen ([] : List α) (ids.take SEEN_CAP) =
      ids.take SEEN_CAP := by
    have h := markSeen_below_cap (ids.take SEEN_CAP) []
    simp only [List.nil_append] at h
    exact h ((List.take_sublist _ _).nodup hnd) (le_of_eq htake)
  have hxmem : x ∉ ids.take SEEN_CAP := by
    intro hc
    exact (List.disjoint_of_nodup_append (hids ▸ hnd)) hc (by simp)
  have hlen2 : (ids.take SEEN_CAP ++ [x]).length - SEEN_CAP = 1 := by
    rw [List.length_append, htake]
    simp
  have hmain : markSeenAll ids = ids.drop 1 := by
    unfold markSeenAll
    rw [← hids, List.foldl_append, hfold]
    simp only [List.foldl_cons, List.foldl_nil]
    unfold markSeen
    rw [if_neg hxmem]
    show (ids.take SEEN_CAP ++ [x]).drop ((ids.take SEEN_CAP ++ [x]).length - SEEN_CAP)
        = (ids.take SEEN_CAP ++ [x]).drop 1
    rw [hlen2]
  refine ⟨hmain, ?_⟩
  rw [hmain, List.length_drop, hlen]
  omega

/-- Witness for C8 at a concrete input: the 5001 distinct ids 0..5000. -/
theorem C8_witness :
    markSeenAll (List.range (SEEN_CAP + 1)) = (List.range (SEEN_CAP + 1)).drop 1
    ∧ (markSeenAll (List.range (SEEN_CAP + 1))).length = SEEN_CAP :=
  C8_seen_ledger_cap (List.range (SEEN_CAP + 1)) (List.nodup_range _)
    (List.length_range _)

/-- Every entry of `setWeight iv tag w` is the new binding or an old entry. -/
theorem setWeight_mem :
    ∀ (iv : List (String × ℚ)) (tag : String) (w : ℚ) (e : String × ℚ),
      e ∈ setWeight iv tag w → e = (tag, w) ∨ e ∈ iv := by
  intro iv tag w
  induction iv with
  | nil =>
    intro e he
    simp [setWeight] at he
    exact Or.inl he
  | cons hd tl ih =>
    intro e he
    by_cases hc : hd.1 == tag
    · simp only [setWeight, if_pos hc] at he
      rcases List.mem_cons.mp he with h | h
      · exact Or.inl h
      · exact Or.inr (List.mem_cons_of_mem _ h)
    · simp only [setWeight, if_neg hc] at he
      rcases List.mem_cons.mp he with h | h
      · exact Or.inr (by simp [h])
      · rcases ih e h with h2 | h2
        · exact Or.inl h2
        · exact Or.inr (List.mem_cons_of_mem _ h2)

/-- Every weight `clampWeight` produces lies in [0.01, 5.0]. -/
theorem clampWeight_range (w : ℚ) :
    1 / 100 ≤ clampWeight w ∧ clampWeight w ≤ 5 := by
  unfold clampWeight
  exact ⟨le_max_left _ _, max_le (by norm_num) (min_le_right _ _)⟩

/-- The tag-fold of `updateUserInterest` preserves the weight range. -/
theorem foldl_update_range (es : ℚ) :
    ∀ (tags : List String) (iv : List (String × ℚ)),
      (∀ e ∈ iv, 1 / 100 ≤ e.2 ∧ e.2 ≤ 5) →
      ∀ e ∈ tags.foldl (fun iv tag =>
          setWeight iv tag
            (clampWeight ((lookupWeight iv tag).getD (1 / 2) + LEARNING_RATE * es))) iv,
        1 / 100 ≤ e.2 ∧ e.2 ≤ 5 := by
  intro tags
  induction tags with
  | nil => intro iv h; simpa using h
  | cons t rest ih =>
    intro iv h
    rw [List.foldl_cons]
    apply ih
    intro e he
    rcases setWeight_mem _ _ _ _ he with h2 | h2
    · rw [h2]
      exact clampWeight_range _
    · exact h e h2

/-- C4: starting from any profile whose interest weights satisfy the data
model's [0.01, 5.0] invariant (in particular the default empty profile),
after any finite sequence of `updateUserInterest` calls with arbitrary tag
lists and arbitrary engagement scores, every stored weight still lies in
[0.01, 5.0]. -/
theorem C4_interest_weights_clamped :
    ∀ (profile : UserProfile) (updates : List (List String × ℚ)),
      (∀ e ∈ profile.interestVector, 1 / 100 ≤ e.2 ∧ e.2 ≤ 5) →
      ∀ e ∈ (applyEngagements updates profile).interestVector,
        1 / 100 ≤ e.2 ∧ e.2 ≤ 5 := by
  intro profile updates
  induction updates generalizing profile with
  | nil => intro h; simpa [applyEngagements] using h
  | cons u rest ih =>
    intro h
    have h1 : ∀ e ∈ (updateUserInterest u.1 u.2 profile).interestVector,
        1 / 100 ≤ e.2 ∧ e.2 ≤ 5 :=
      fun e he => foldl_update_range u.2 u.1 profile.interestVector h e he
    have h2 := ih (updateUserInterest u.1 u.2 profile) h1
    simpa [applyEngagements, List.foldl_cons] using h2

/-- Witness for C4 at a concrete input: one full-watch engagement for tag
"nba" on the empty profile stores weight 0.65, which is inside [0.01, 5]. -/
theorem C4_witness : (1 : ℚ) / 100 ≤ (13 : ℚ) / 20 ∧ (13 : ℚ) / 20 ≤ 5 :=
  C4_interest_weights_clamped { interestVector := [], watchHistory := [] }
    [(["nba"], 1)] (by simp) ("nba", 13 / 20)
    (by
      simp [applyEngagements, updateUserInterest, lookupWeight, setWeight,
        clampWeight, LEARNING_RATE]
      norm_num)

end VVP

namespace VVP

/-- A looked-up-or-default tag weight is nonnegative when all stored weights
satisfy the data-model range. -/
theorem lookup_getD_nonneg (iv : List (String × ℚ)) (tag : String)
    (h : ∀ e ∈ iv, 1 / 100 ≤ e.2 ∧ e.2 ≤ 5) :
    0 ≤ (lookupWeight iv tag).getD (1 / 2) := by
  unfold lookupWeight
  cases hf : iv.find? (fun e => e.1 == tag) with
  | none => norm_num
  | some e =>
    have h1 := (h e (List.mem_of_find?_eq_some hf)).1
    simp only [Option.map_some', Option.getD_some]
    linarith

/-- The affinity accumulator of `calculateScore` stays nonnegative. -/
theorem affinity_foldl_nonneg (iv : List (String × ℚ))
    (h : ∀ e ∈ iv, 1 / 100 ≤ e.2 ∧ e.2 ≤ 5) :
    ∀ (tags : List String) (acc : ℚ), 0 ≤ acc →
      0 ≤ tags.foldl (fun acc tag => acc + ((lookupWeight iv tag).getD (1 / 2))) acc := by
  intro tags
  induction tags with
  | nil => intro acc hacc; simpa using hacc
  | cons t rest ih =>
    intro acc hacc
    rw [List.foldl_cons]
    exact ih _ (add_nonneg hacc (lookup_getD_nonneg iv t h))

/-- A penalized moment scores exactly −10 regardless of the noise draw. -/
theorem calculateScore_penalized (profile : UserProfile) (v : Moment) (noise : ℚ)
    (h : penalizedBy profile v = true) : calculateScore profile v noise = -10 := by
  unfold penalizedBy at h
  unfold calculateScore
  rw [if_pos h]

/-- A non-penalized moment scores at least −1/20 when weights, popularity and
noise respect their documented ranges. -/
theorem calculateScore_lower (profile : UserProfile) (v : Moment) (noise : ℚ)
    (hW : ∀ e ∈ profile.interestVector, 1 / 100 ≤ e.2 ∧ e.2 ≤ 5)
    (hP : ∀ g : ℚ, v.globalPopularity = some g → 0 ≤ g ∧ g ≤ 1)
    (hN : -(1 / 20) ≤ noise)
    (hpen : penalizedBy profile v = false) :
    -(1 / 20) ≤ calculateScore profile v noise := by
  unfold penalizedBy at hpen
  unfold calculateScore
  rw [if_neg (by rw [hpen]; simp)]
  have hA : 0 ≤ v.tags.foldl
      (fun acc tag => acc + ((lookupWeight profile.interestVector tag).getD (1 / 2))) 0 :=
    affinity_foldl_nonneg _ hW v.tags 0 le_rfl
  have hden : (0 : ℚ) < ((max 1 v.tags.length : ℕ) : ℚ) := by
    have h1 : (1 : ℕ) ≤ max 1 v.tags.length := le_max_left _ _
    exact_mod_cast Nat.lt_of_lt_of_le Nat.zero_lt_one h1
  have havg : 0 ≤ v.tags.foldl
      (fun acc tag => acc + ((lookupWeight profile.interestVector tag).getD (1 / 2))) 0 /
        ((max 1 v.tags.length : ℕ) : ℚ) := div_nonneg hA (le_of_lt hden)
  have hpop : 0 ≤ v.globalPopularity.getD (1 / 2) := by
    cases hg : v.globalPopularity with
    | none => norm_num
    | some g =>
      simp only [Option.getD_some]
      exact (hP g hg).1
  have h7 : (0 : ℚ) ≤ 7 / 10 := by norm_num
  have h3 : (0 : ℚ) ≤ 3 / 10 := by norm_num
  have hm1 := mul_nonneg havg h7
  have hm2 := mul_nonneg hpop h3
  dsimp only
  linarith

/-- Every element of the scored list pairs a video of the input with its
score under some noise draw. -/
theorem scoreRank_mem (profile : UserProfile) (videos : List Moment)
    (noiseAt : ℕ → ℚ) (x : ℚ × Moment)
    (hx : x ∈ scoreRank profile videos noiseAt) :
    x.2 ∈ videos ∧ ∃ k : ℕ, x.1 = calculateScore profile x.2 (noiseAt k) := by
  unfold scoreRank at hx
  rcases List.mem_map.mp hx with ⟨p, hp, rfl⟩
  refine ⟨?_, ⟨p.1, rfl⟩⟩
  have h1 : p.2 ∈ videos.enum.map Prod.snd := List.mem_map_of_mem _ hp
  rw [List.enum_map_snd] at h1
  exact h1

/-- C3: with profile weights in the data-model range [0.01, 5], popularity in
[0, 1] and the Math.random noise within ±0.05, a moment in the recent-20
watch history scores ≤ −10, a non-penalized moment with tags scores ≥ −1,
and `rankVideos` never places a penalized moment before a non-penalized
one. -/
theorem C3_history_penalty_ranking :
    ∀ (profile : UserProfile) (videos : List Moment) (noiseAt : ℕ → ℚ),
      (∀ e ∈ profile.interestVector, 1 / 100 ≤ e.2 ∧ e.2 ≤ 5) →
      (∀ i : ℕ, -(1 / 20) ≤ noiseAt i ∧ noiseAt i ≤ 1 / 20) →
      (∀ v ∈ videos, ∀ g : ℚ, v.globalPopularity = some g → 0 ≤ g ∧ g ≤ 1) →
      (∀ (v : Moment) (noise : ℚ), penalizedBy profile v = true →
        calculateScore profile v noise ≤ -10)
      ∧ (∀ v ∈ videos, ∀ i : ℕ, penalizedBy profile v = false → v.tags ≠ [] →
          -1 ≤ calculateScore profile v (noiseAt i))
      ∧ (∀ i j : Fin (rankVideos profile videos noiseAt).length, i < j →
          penalizedBy profile ((rankVideos profile videos noiseAt).get i) = true →
          penalizedBy profile ((rankVideos profile videos noiseAt).get j) = true) := by
  intro profile videos noiseAt hW hN hP
  refine ⟨?_, ?_, ?_⟩
  · intro v noise hpen
    exact le_of_eq (calculateScore_penalized profile v noise hpen)
  · intro v hv i hpen _
    have h := calculateScore_lower profile v (noiseAt i) hW
      (fun g hg => hP v hv g hg) (hN i).1 hpen
    linarith
  · intro i j hij hpi
    by_contra hpj
    rw [Bool.not_eq_true] at hpj
    have hlen : (rankVideos profile videos noiseAt).length =
        ((scoreRank profile videos noiseAt).mergeSort
          (fun a b => decide (b.1 ≤ a.1))).length := by
      simp [rankVideos]
    have hpair := @List.sorted_mergeSort (ℚ × Moment)
      (fun a b => decide (b.1 ≤ a.1))
      (fun a b c hab hbc => by
        simp only [decide_eq_true_iff] at hab hbc ⊢
        exact le_trans hbc hab)
      (fun a b => by
        simp only [Bool.or_eq_true, decide_eq_true_iff]
        exact le_total b.1 a.1)
      (scoreRank profile videos noiseAt)
    have hget : ∀ k : Fin (rankVideos profile videos noiseAt).length,
        (rankVideos profile videos noiseAt).get k =
          (((scoreRank profile videos noiseAt).mergeSort
            (fun a b => decide (b.1 ≤ a.1))).get (Fin.cast hlen k)).2 := by
      intro k
      simp [rankVideos]
    have hsle := List.pairwise_iff_get.mp hpair (Fin.cast hlen i) (Fin.cast hlen j)
      (by simpa using hij)
    simp only [decide_eq_true_iff] at hsle
    have hmem : ∀ k : Fin (rankVideos profile videos noiseAt).length,
        (((scoreRank profile videos noiseAt).mergeSort
          (fun a b => decide (b.1 ≤ a.1))).get (Fin.cast hlen k))
          ∈ scoreRank profile videos noiseAt := by
      intro k
      exact (List.mergeSort_perm _ _).mem_iff.mp
        (List.get_mem _ _ (Fin.cast hlen k).2)
    obtain ⟨hvi, ki, hki⟩ := scoreRank_mem profile videos noiseAt _ (hmem i)
    obtain ⟨hvj, kj, hkj⟩ := scoreRank_mem profile videos noiseAt _ (hmem j)
    rw [hget i] at hpi
    rw [hget j] at hpj
    have hsi := calculateScore_penalized profile _ (noiseAt ki) hpi
    rw [← hki] at hsi
    have hsj := calculateScore_lower profile _ (noiseAt kj) hW
      (fun g hg => hP _ hvj g hg) (hN kj).1 hpj
    rw [← hkj] at hsj
    have hcon : (-(1 / 20) : ℚ) ≤ -10 := le_trans hsj (hsi ▸ hsle)
    linarith

/-- Witness for C3 at a concrete input: a penalized moment of a concrete
profile scores ≤ −10. -/
theorem C3_witness : calculateScore profileFix vidPen 0 ≤ -10 :=
  (C3_history_penalty_ranking profileFix [vidPen, vidNew] (fun _ => 0)
    (by
      intro e he
      simp [profileFix] at he
      rw [he]
      norm_num)
    (by intro i; norm_num)
    (by
      intro v hv g hg
      simp [vidPen, vidNew] at hv
      rcases hv with rfl | rfl <;> simp [vidPen, vidNew] at hg)).1
    vidPen 0 (by decide)

/-- C10: `rankVideos` returns a permutation of its input for every profile
and every noise draw — same length, same elements, nothing dropped,
duplicated or modified. -/
theorem C10_rank_is_permutation :
    ∀ (profile : UserProfile) (videos : List Moment) (noiseAt : ℕ → ℚ),
      (rankVideos profile videos noiseAt).Perm videos
      ∧ (rankVideos profile videos noiseAt).length = videos.length := by
  intro profile videos noiseAt
  have hperm : (rankVideos profile videos noiseAt).Perm videos := by
    unfold rankVideos
    have h1 := List.mergeSort_perm (scoreRank profile videos noiseAt)
      (fun a b => decide (b.1 ≤ a.1))
    have h2 := h1.map (fun e : ℚ × Moment => e.2)
    have h3 : (scoreRank profile videos noiseAt).map (fun e => e.2) = videos := by
      unfold scoreRank
      rw [List.map_map]
      exact List.enum_map_snd videos
    rw [h3] at h2
    exact h2
  exact ⟨hperm, hperm.length_eq⟩

end VVP
